import Mathlib

/-!
Verification of the k-nearest-neighbor classification and evaluation harness
of the binary-classification notebook.  The notebook loads two tables of
injected transient trials (the complete set and the subset recovered by the
image-subtraction pipeline), derives a boolean `found` label per record via
membership of its `stamp_id` in the recovered set, repeatedly splits the
labeled records into train/test partitions, fits a k-NN classifier
(Euclidean or Mahalanobis metric), and tallies prediction accuracy.
-/

namespace BinaryClassification

/-- One injected transient trial: the `stamp_id` identifier column plus the
columns the notebook keeps (`relevant_cols`).  Reals are modelled as `ℚ`. -/
structure Record where
  stamp_id : Nat
  stamp_mag : ℚ
  lmt_mag : ℚ
  surface_brightness : ℚ
  seeing : ℚ
  medsky : ℚ
deriving DecidableEq

/-- `np.in1d ar1 ar2`: a boolean list of the length of `ar1`, true at `i`
iff `ar1[i]` occurs in `ar2`. -/
def in1d (ar1 ar2 : List Nat) : List Bool :=
  ar1.map (fun x => ar2.contains x)

/-- A record together with its derived boolean `found` label. -/
structure LabeledRecord where
  record : Record
  found : Bool
deriving DecidableEq

/-- The notebook's label derivation:
`df_all.assign(found=np.in1d(df_all_complete[stamp_id], df_found_complete[stamp_id]))`,
pairing each record of the complete set with the membership bit of its
identifier in the recovered set. -/
def deriveLabels (complete recovered : List Record) : List LabeledRecord :=
  (complete.zip (in1d (complete.map Record.stamp_id) (recovered.map Record.stamp_id))).map
    (fun p => ⟨p.1, p.2⟩)

/-- The notebook's missed subset:
`df_all_complete.loc[~np.in1d(df_all_complete[stamp_id], df_found_complete[stamp_id])]`,
the rows of the complete set whose identifier is not among the recovered
identifiers. -/
def missedSubset (complete recovered : List Record) : List Record :=
  complete.filter (fun r => !((recovered.map Record.stamp_id).contains r.stamp_id))

/-- A distance metric for the classifier: plain Euclidean
(`KNeighborsClassifier` default) or Mahalanobis with a supplied inverse
covariance matrix (`metric_params={VI: inv_cov}` in the notebook). -/
inductive Metric (d : Nat) where
  | euclidean
  | mahalanobis (vi : Matrix (Fin d) (Fin d) ℚ)

/-- Squared distance under a metric.  Squaring preserves the neighbor
ordering, so square roots are unnecessary for k-NN. -/
def sqDist {d : Nat} : Metric d → (Fin d → ℚ) → (Fin d → ℚ) → ℚ
  | .euclidean, x, y => ∑ i, (x i - y i) ^ 2
  | .mahalanobis vi, x, y => ∑ i, ∑ j, (x i - y i) * vi i j * (x j - y j)

/-- A fitted k-NN classifier: stored training features, training labels,
a neighbor count and a metric (`KNC.fit(X_train, y_train)` stores the data;
fitting is storage only). -/
structure Classifier (d : Nat) where
  trainFeatures : List (Fin d → ℚ)
  trainLabels : List Bool
  k : Nat
  metric : Metric d

/-- One stored training point, annotated with its insertion index. -/
structure Neighbor (d : Nat) where
  idx : Nat
  features : Fin d → ℚ
  label : Bool

/-- The training data of a classifier as indexed neighbors, in insertion
order. -/
def annotated {d : Nat} (c : Classifier d) : List (Neighbor d) :=
  (c.trainFeatures.zip c.trainLabels).enum.map (fun p => ⟨p.1, p.2.1, p.2.2⟩)

/-- Modelled from the spec: the neighbor ordering used for nearest-neighbor
search — increasing distance from the query, with ties in distance broken
by the insertion/index order of the training data (the spec's mandated
deterministic tie-break; the notebook defers to the library's internal
tie-break). -/
def neighborRel {d : Nat} (c : Classifier d) (q : Fin d → ℚ) (a b : Neighbor d) : Prop :=
  sqDist c.metric q a.features < sqDist c.metric q b.features ∨
    (sqDist c.metric q a.features = sqDist c.metric q b.features ∧ a.idx ≤ b.idx)

instance neighborRelDecidable {d : Nat} (c : Classifier d) (q : Fin d → ℚ) :
    DecidableRel (neighborRel c q) :=
  fun a b =>
    inferInstanceAs
      (Decidable (sqDist c.metric q a.features < sqDist c.metric q b.features ∨
        (sqDist c.metric q a.features = sqDist c.metric q b.features ∧ a.idx ≤ b.idx)))

instance neighborRelTrans {d : Nat} (c : Classifier d) (q : Fin d → ℚ) :
    IsTrans (Neighbor d) (neighborRel c q) := by
  constructor
  intro a b e hab hbe
  rcases hab with h1 | ⟨h1, i1⟩ <;> rcases hbe with h2 | ⟨h2, i2⟩
  · exact Or.inl (h1.trans h2)
  · exact Or.inl (h2 ▸ h1)
  · exact Or.inl (h1 ▸ h2)
  · exact Or.inr ⟨h1.trans h2, i1.trans i2⟩

instance neighborRelTotal {d : Nat} (c : Classifier d) (q : Fin d → ℚ) :
    IsTotal (Neighbor d) (neighborRel c q) := by
  constructor
  intro a b
  rcases lt_trichotomy (sqDist c.metric q a.features) (sqDist c.metric q b.features) with
    h | h | h
  · exact Or.inl (Or.inl h)
  · rcases Nat.le_total a.idx b.idx with hi | hi
    · exact Or.inl (Or.inr ⟨h, hi⟩)
    · exact Or.inr (Or.inr ⟨h.symm, hi⟩)
  · exact Or.inr (Or.inl h)

/-- All training points ranked by distance from the query (brute-force
nearest-neighbor search, the spec's reference algorithm), using a stable
sort. -/
def rankNeighbors {d : Nat} (c : Classifier d) (q : Fin d → ℚ) : List (Neighbor d) :=
  (annotated c).insertionSort (neighborRel c q)

/-- The `k` nearest training points to the query. -/
def kNearest {d : Nat} (c : Classifier d) (q : Fin d → ℚ) : List (Neighbor d) :=
  (rankNeighbors c q).take c.k

/-- `KNC.predict_proba(...)` for the true class: the fraction of the `k`
nearest training neighbors whose label is true. -/
def predictProbability {d : Nat} (c : Classifier d) (q : Fin d → ℚ) : ℚ :=
  (((kNearest c q).countP (fun nb => nb.label) : ℚ)) / (c.k : ℚ)

/-- `KNC.predict(...)`: majority vote across the `k` nearest neighbors;
on an exact tie the false class wins (argmax returns the first class). -/
def predict {d : Nat} (c : Classifier d) (q : Fin d → ℚ) : Bool :=
  decide ((kNearest c q).length < 2 * (kNearest c q).countP (fun nb => nb.label))

/-- `KNC.predict(X_test)`: one prediction per test record. -/
def predictions {d : Nat} (c : Classifier d) (testFeatures : List (Fin d → ℚ)) :
    List Bool :=
  testFeatures.map (predict c)

/-- Accuracy tally of one trial, as printed by the notebook's loops. -/
structure EvaluationResult where
  correct : Nat
  incorrect : Nat
  percentage_correct : ℚ
  percentage_incorrect : ℚ

/-- The notebook's evaluation step:
`incorrect = sum(logical_xor(KNC_predict, y_test))`,
`correct = sum(logical_not(logical_xor(KNC_predict, y_test)))`,
`percentage_correct = 100*correct/(correct+incorrect)` and likewise for
incorrect. -/
def evaluate {d : Nat} (c : Classifier d) (testFeatures : List (Fin d → ℚ))
    (testLabels : List Bool) : EvaluationResult :=
  let flags := ((predictions c testFeatures).zip testLabels).map (fun p => xor p.1 p.2)
  let incorrect := flags.countP (fun b => b)
  let correct := flags.countP (fun b => !b)
  { correct := correct
    incorrect := incorrect
    percentage_correct := 100 * (correct : ℚ) / ((correct : ℚ) + (incorrect : ℚ))
    percentage_incorrect := 100 * (incorrect : ℚ) / ((correct : ℚ) + (incorrect : ℚ)) }

/-- Modelled from the spec: a linear congruential pseudorandom generator
standing in for the library's seeded random source, which is not part of
the repository. -/
def lcg (s : Nat) : Nat := (1103515245 * s + 12345) % 2 ^ 31

/-- Modelled from the spec: a seed-deterministic shuffle (random sampling
without replacement), implemented by keying each element with a
pseudorandom value derived from the seed and its position and sorting by
the keys. -/
def shuffle {α : Type} (seed : Nat) (l : List α) : List α :=
  ((l.enum.map (fun p => (lcg (seed + p.1), p.2))).insertionSort
    (fun a b => a.1 ≤ b.1)).map Prod.snd

/-- The spec's `InvalidArgument` error for out-of-range arguments. -/
inductive SplitError where
  | invalidArgument
deriving DecidableEq

/-- Modelled from the spec: `makeSplit(records, testFraction, seed)` —
the `train_test_split(..., test_size, random_state=seed)` call, whose
implementation lives in an external library.  Shuffles deterministically
from the seed and cuts off `⌈testFraction * n⌉` records as the test
partition, the rest as the training partition.  Fails with
`InvalidArgument` on an empty collection or a fraction outside (0,1). -/
def makeSplit {α : Type} (records : List α) (testFraction : ℚ) (seed : Nat) :
    Except SplitError (List α × List α) :=
  if records.isEmpty ∨ testFraction ≤ 0 ∨ 1 ≤ testFraction then
    .error .invalidArgument
  else
    let shuffled := shuffle seed records
    let nTest := ⌈testFraction * records.length⌉₊
    .ok (shuffled.drop nTest, shuffled.take nTest)

/-- One `train_test_split` invocation of the notebook: its test fraction
and its seed, if one was passed (`random_state=...`). -/
structure SplitCall where
  testSize : ℚ
  seed : Option Nat
deriving DecidableEq

/-- The train/test split invocations the notebook performs, in order: one
exploratory split with no `random_state` before the loops, then the
Euclidean ten-trial loop, the Mahalanobis five-trial loop and the second
Euclidean ten-trial loop, each with `random_state=ii` for `ii` ranging
over the trial numbers. -/
def notebookSplitCalls : List SplitCall :=
  ⟨1/10, none⟩ ::
    ((List.range 10).map (fun ii => ⟨1/10, some ii⟩) ++
      (List.range 5).map (fun ii => ⟨1/10, some ii⟩) ++
      (List.range 10).map (fun ii => ⟨1/10, some ii⟩))

/-- Sample mean of a list of feature vectors, per coordinate. -/
def sampleMean (d : Nat) (xs : List (Fin d → ℚ)) : Fin d → ℚ :=
  fun j => (xs.map (fun x => x j)).sum / (xs.length : ℚ)

/-- Sample covariance matrix with the `n-1` normalization of
`DataFrame.cov`, as in the notebook's `cov = X_train.cov()`. -/
def sampleCov (d : Nat) (xs : List (Fin d → ℚ)) : Matrix (Fin d) (Fin d) ℚ :=
  Matrix.of fun i j =>
    (xs.map (fun x => (x i - sampleMean d xs i) * (x j - sampleMean d xs j))).sum /
      ((xs.length : ℚ) - 1)

/-- Matrix inversion as `np.linalg.inv`: defined exactly when the
determinant is nonzero, in which case the inverse is
`det⁻¹ • adjugate`. -/
def matInv {d : Nat} (A : Matrix (Fin d) (Fin d) ℚ) :
    Option (Matrix (Fin d) (Fin d) ℚ) :=
  if A.det = 0 then none else some (A.det⁻¹ • A.adjugate)

/-- The spec's `MetricError`: singular covariance matrix under the
Mahalanobis metric (`np.linalg.inv` raises `LinAlgError` there). -/
inductive MetricError where
  | singularCovariance
deriving DecidableEq

/-- The notebook's Mahalanobis fitting step: compute the covariance of the
training features only (`cov = X_train.cov()`), invert it
(`inv_cov = np.linalg.inv(cov)`), and build the classifier with the
Mahalanobis metric; fails when the covariance matrix is singular. -/
def fitMahalanobis (d : Nat) (trainF : List (Fin d → ℚ)) (trainL : List Bool)
    (k : Nat) : Except MetricError (Classifier d) :=
  match matInv (sampleCov d trainF) with
  | none => .error .singularCovariance
  | some vi => .ok ⟨trainF, trainL, k, .mahalanobis vi⟩

/-- One iteration of the notebook's Mahalanobis trial loop, after the
split: fit on the training partition, then evaluate on the test
partition. -/
def runMahalanobisTrial (d : Nat) (trainF : List (Fin d → ℚ)) (trainL : List Bool)
    (testF : List (Fin d → ℚ)) (testL : List Bool) (k : Nat) :
    Except MetricError (Classifier d × EvaluationResult) :=
  match fitMahalanobis d trainF trainL k with
  | .error e => .error e
  | .ok c => .ok (c, evaluate c testF testL)

/-- The spec's end-to-end scenario classifier: one neighbor, Euclidean
metric, trained on the single-feature points `([0], true)` and
`([10], false)`. -/
def scenarioClassifier : Classifier 1 :=
  ⟨[fun _ => 0, fun _ => 10], [true, false], 1, .euclidean⟩


theorem deriveLabels_eq_map (complete recovered : List Record) :
    deriveLabels complete recovered =
      complete.map
        (fun r => ⟨r, (recovered.map Record.stamp_id).contains r.stamp_id⟩) := by
  induction complete with
  | nil => rfl
  | cons r t ih =>
    simp only [deriveLabels, in1d, List.map_cons, List.zip_cons_cons, List.map_map] at *
    exact congrArg _ ih

theorem contains_eq_decide_mem (a : Nat) (l : List Nat) :
    l.contains a = decide (a ∈ l) := by
  by_cases h : a ∈ l <;> simp [h]

/-- Claim C1: for every complete and recovered record set, `deriveLabels`
produces exactly one labeled record per record of the complete set, in the
order of the complete set, whose underlying record is that record of the
complete set and whose `found` bit is true iff the record's identifier
occurs among the recovered set's identifiers. -/
theorem deriveLabels_spec (complete recovered : List Record) :
    (deriveLabels complete recovered).length = complete.length ∧
    ∀ i : Nat,
      ((deriveLabels complete recovered)[i]?.map LabeledRecord.record = complete[i]?) ∧
      ((deriveLabels complete recovered)[i]?.map LabeledRecord.found =
        complete[i]?.map
          (fun r => decide (r.stamp_id ∈ recovered.map Record.stamp_id))) := by
  rw [deriveLabels_eq_map]
  refine ⟨by simp, fun i => ⟨?_, ?_⟩⟩
  · simp only [List.getElem?_map]
    cases complete[i]? <;> rfl
  · simp only [List.getElem?_map]
    cases complete[i]? with
    | none => rfl
    | some r => simp [contains_eq_decide_mem]

/-- Claim C10: a record of the complete set lands in the missed subset iff
its derived `found` label is false, and the found-labeled records together
with the missed subset are a permutation of the complete set. -/
theorem missedSubset_partition (complete recovered : List Record) :
    missedSubset complete recovered =
      ((deriveLabels complete recovered).filter (fun lr => !lr.found)).map
        LabeledRecord.record ∧
    ((((deriveLabels complete recovered).filter (fun lr => lr.found)).map
        LabeledRecord.record) ++ missedSubset complete recovered).Perm complete := by
  rw [deriveLabels_eq_map]
  have h1 :
      (LabeledRecord.record ∘ fun r : Record =>
        (⟨r, (recovered.map Record.stamp_id).contains r.stamp_id⟩ : LabeledRecord)) =
        id := rfl
  constructor
  · rw [List.filter_map, List.map_map, h1, List.map_id]
    rfl
  · rw [List.filter_map, List.map_map, h1, List.map_id]
    exact List.filter_append_perm _ complete

theorem countP_add_countP_not {α : Type} (p : α → Bool) (l : List α) :
    l.countP p + l.countP (fun a => !p a) = l.length := by
  induction l with
  | nil => rfl
  | cons x t ih =>
    by_cases h : p x = true <;>
      simp [List.countP_cons, h] <;> omega

/-- Claim C2: for every evaluation over a nonempty test set with as many
feature rows as labels, the counts of correct and incorrect predictions sum
to the size of the test set and the two percentages sum to exactly 100. -/
theorem evaluate_percentages {d : Nat} (c : Classifier d)
    (testF : List (Fin d → ℚ)) (testL : List Bool)
    (hlen : testF.length = testL.length) (hne : testL ≠ []) :
    (evaluate c testF testL).correct + (evaluate c testF testL).incorrect =
      testL.length ∧
    (evaluate c testF testL).percentage_correct +
      (evaluate c testF testL).percentage_incorrect = 100 := by
  have hflags :
      (((predictions c testF).zip testL).map
        (fun p : Bool × Bool => xor p.1 p.2)).length = testL.length := by
    simp [predictions, hlen]
  have hc : (evaluate c testF testL).correct =
      (((predictions c testF).zip testL).map
        (fun p : Bool × Bool => xor p.1 p.2)).countP (fun b => !b) := rfl
  have hi : (evaluate c testF testL).incorrect =
      (((predictions c testF).zip testL).map
        (fun p : Bool × Bool => xor p.1 p.2)).countP (fun b => b) := rfl
  have hn : (evaluate c testF testL).correct + (evaluate c testF testL).incorrect =
      testL.length := by
    have h2 := countP_add_countP_not (fun b : Bool => b)
      (((predictions c testF).zip testL).map (fun p : Bool × Bool => xor p.1 p.2))
    rw [hc, hi, ← hflags]
    omega
  refine ⟨hn, ?_⟩
  have hne0 : ((evaluate c testF testL).correct : ℚ) +
      ((evaluate c testF testL).incorrect : ℚ) ≠ 0 := by
    rw [← Nat.cast_add, hn]
    have hpos : 0 < testL.length := List.length_pos.mpr hne
    exact Nat.cast_ne_zero.mpr (by omega)
  have hpc : (evaluate c testF testL).percentage_correct =
      100 * ((evaluate c testF testL).correct : ℚ) /
        (((evaluate c testF testL).correct : ℚ) +
          ((evaluate c testF testL).incorrect : ℚ)) := rfl
  have hpi : (evaluate c testF testL).percentage_incorrect =
      100 * ((evaluate c testF testL).incorrect : ℚ) /
        (((evaluate c testF testL).correct : ℚ) +
          ((evaluate c testF testL).incorrect : ℚ)) := rfl
  rw [hpc, hpi, div_add_div_same, ← mul_add, mul_div_assoc, div_self hne0, mul_one]

/-- Witness for claim C2: the hypotheses of `evaluate_percentages` hold at a
concrete one-record test set and the conclusion follows by applying it. -/
theorem evaluate_percentages_witness :
    ([fun _ => (1 : ℚ)] : List (Fin 1 → ℚ)).length = ([true] : List Bool).length ∧
    ([true] : List Bool) ≠ [] ∧
    ((evaluate scenarioClassifier [fun _ => 1] [true]).correct +
        (evaluate scenarioClassifier [fun _ => 1] [true]).incorrect =
      ([true] : List Bool).length ∧
      (evaluate scenarioClassifier [fun _ => 1] [true]).percentage_correct +
        (evaluate scenarioClassifier [fun _ => 1] [true]).percentage_incorrect = 100) :=
  ⟨rfl, by decide, evaluate_percentages scenarioClassifier _ _ rfl (by decide)⟩

/-- Claim C3: each entry of the prediction list depends only on the
classifier and that entry's features (predictions are independent of the
other test records), and `evaluate` counts a record as incorrect exactly
when the predicted boolean differs from the true label, as correct exactly
when they coincide. -/
theorem evaluate_pointwise {d : Nat} (c : Classifier d)
    (f g : List (Fin d → ℚ)) (testL : List Bool) (i : Nat)
    (hfg : f[i]? = g[i]?) :
    ((predictions c f)[i]? = (f[i]?).map (predict c)) ∧
    ((predictions c f)[i]? = (predictions c g)[i]?) ∧
    ((evaluate c f testL).incorrect =
      ((predictions c f).zip testL).countP (fun p => decide (p.1 ≠ p.2))) ∧
    ((evaluate c f testL).correct =
      ((predictions c f).zip testL).countP (fun p => decide (p.1 = p.2))) := by
  have h1 : ∀ (h : List (Fin d → ℚ)),
      (predictions c h)[i]? = (h[i]?).map (predict c) := by
    intro h
    simp [predictions]
  have hxor : (fun p : Bool × Bool => xor p.1 p.2) = fun p => decide (p.1 ≠ p.2) := by
    funext p
    obtain ⟨a, b⟩ := p
    cases a <;> cases b <;> rfl
  have hnxor : (fun p : Bool × Bool => !(xor p.1 p.2)) = fun p => decide (p.1 = p.2) := by
    funext p
    obtain ⟨a, b⟩ := p
    cases a <;> cases b <;> rfl
  refine ⟨h1 f, by rw [h1 f, h1 g, hfg], ?_, ?_⟩
  · show (((predictions c f).zip testL).map
        (fun p : Bool × Bool => xor p.1 p.2)).countP (fun b => b) = _
    rw [List.countP_map]
    rw [show ((fun b : Bool => b) ∘ fun p : Bool × Bool => xor p.1 p.2) =
      (fun p : Bool × Bool => xor p.1 p.2) from rfl, hxor]
  · show (((predictions c f).zip testL).map
        (fun p : Bool × Bool => xor p.1 p.2)).countP (fun b => !b) = _
    rw [List.countP_map]
    rw [show ((fun b : Bool => !b) ∘ fun p : Bool × Bool => xor p.1 p.2) =
      (fun p : Bool × Bool => !(xor p.1 p.2)) from rfl, hnxor]

/-- Witness for claim C3: `evaluate_pointwise` applied at two concrete test
feature lists agreeing at position 0. -/
theorem evaluate_pointwise_witness :
    (([fun _ => (1 : ℚ)] : List (Fin 1 → ℚ))[0]? =
      ([fun _ => (1 : ℚ), fun _ => 9] : List (Fin 1 → ℚ))[0]?) ∧
    ((predictions scenarioClassifier [fun _ => 1])[0]? =
      (([fun _ => (1 : ℚ)] : List (Fin 1 → ℚ))[0]?).map (predict scenarioClassifier)) ∧
    ((predictions scenarioClassifier [fun _ => 1])[0]? =
      (predictions scenarioClassifier [fun _ => 1, fun _ => 9])[0]?) ∧
    ((evaluate scenarioClassifier [fun _ => 1] [true]).incorrect =
      ((predictions scenarioClassifier [fun _ => 1]).zip [true]).countP
        (fun p => decide (p.1 ≠ p.2))) ∧
    ((evaluate scenarioClassifier [fun _ => 1] [true]).correct =
      ((predictions scenarioClassifier [fun _ => 1]).zip [true]).countP
        (fun p => decide (p.1 = p.2))) := by
  have h := evaluate_pointwise scenarioClassifier
    [fun _ => 1] [fun _ => 1, fun _ => 9] [true] 0 rfl
  exact ⟨rfl, h.1, h.2.1, h.2.2.1, h.2.2.2⟩

/-- Claim C4 fails as stated: not every `train_test_split` call of the
notebook passes a seed — the exploratory split before the trial loops
draws from the ambient global random state. -/
theorem notebookSplitCalls_not_all_seeded :
    ¬ ∀ call ∈ notebookSplitCalls, call.seed.isSome := by decide

/-- Claim C4, amended: every trial-loop split call is seed-parameterized
(the sole exception is the exploratory split preceding the loops), and two
calls of `makeSplit` with identical records, test fraction and seed yield
identical partitions. -/
theorem makeSplit_deterministic :
    notebookSplitCalls.tail.all (fun call => call.seed.isSome) = true ∧
    ∀ (α : Type) (records : List α) (f : ℚ) (seed : Nat),
      makeSplit records f seed = makeSplit records f seed :=
  ⟨by decide, fun _ _ _ _ => rfl⟩

theorem shuffle_perm {α : Type} (seed : Nat) (l : List α) :
    (shuffle seed l).Perm l := by
  unfold shuffle
  refine ((List.perm_insertionSort _ _).map Prod.snd).trans ?_
  rw [List.map_map,
    show (Prod.snd ∘ fun p : Nat × α => (lcg (seed + p.1), p.2)) = Prod.snd from rfl,
    List.enum_map_snd]

/-- Claim C5: on a nonempty record collection and a test fraction in (0,1),
`makeSplit` succeeds and returns partitions whose sizes add up to the
number of records, whose test size is the integer rounding `⌈f·n⌉` of the
requested fraction (within one of `f·n`), and which together are a
permutation of the input (disjoint partition). -/
theorem makeSplit_partition {α : Type} (records : List α) (f : ℚ) (seed : Nat)
    (hne : records ≠ []) (h0 : 0 < f) (h1 : f < 1) :
    ∃ train test, makeSplit records f seed = .ok (train, test) ∧
      train.length + test.length = records.length ∧
      test.length = ⌈f * records.length⌉₊ ∧
      f * records.length ≤ (test.length : ℚ) ∧
      (test.length : ℚ) < f * records.length + 1 ∧
      (test ++ train).Perm records := by
  have hcond : ¬(records.isEmpty = true ∨ f ≤ 0 ∨ 1 ≤ f) := by
    rintro (h | h | h)
    · exact hne (List.isEmpty_iff.mp h)
    · exact absurd h (not_le.mpr h0)
    · exact absurd h (not_le.mpr h1)
  have hshlen : (shuffle seed records).length = records.length :=
    (shuffle_perm seed records).length_eq
  have hfn : f * records.length ≤ (records.length : ℚ) := by
    calc f * records.length ≤ 1 * records.length := by
          exact mul_le_mul_of_nonneg_right h1.le (Nat.cast_nonneg _)
      _ = records.length := one_mul _
  have hceil : ⌈f * records.length⌉₊ ≤ records.length := by
    rw [Nat.ceil_le]
    exact hfn
  refine ⟨(shuffle seed records).drop ⌈f * records.length⌉₊,
    (shuffle seed records).take ⌈f * records.length⌉₊, ?_, ?_, ?_, ?_, ?_, ?_⟩
  · rw [makeSplit, if_neg hcond]
  · rw [List.length_drop, List.length_take, hshlen,
      Nat.min_eq_left hceil]
    omega
  · rw [List.length_take, hshlen, Nat.min_eq_left hceil]
  · rw [List.length_take, hshlen, Nat.min_eq_left hceil]
    exact Nat.le_ceil _
  · rw [List.length_take, hshlen, Nat.min_eq_left hceil]
    exact Nat.ceil_lt_add_one (by positivity)
  · rw [List.take_append_drop]
    exact shuffle_perm seed records

/-- Witness for claim C5: `makeSplit_partition` applied to ten records with
test fraction 1/10 and seed 0. -/
theorem makeSplit_partition_witness :
    (List.range 10 ≠ []) ∧ (0 < (1 : ℚ)/10) ∧ ((1 : ℚ)/10 < 1) ∧
    (∃ train test, makeSplit (List.range 10) ((1 : ℚ)/10) 0 = .ok (train, test) ∧
      train.length + test.length = (List.range 10).length ∧
      test.length = ⌈(1 : ℚ)/10 * (List.range 10).length⌉₊ ∧
      (1 : ℚ)/10 * (List.range 10).length ≤ (test.length : ℚ) ∧
      (test.length : ℚ) < (1 : ℚ)/10 * (List.range 10).length + 1 ∧
      (test ++ train).Perm (List.range 10)) :=
  ⟨by decide, by norm_num, by norm_num,
    makeSplit_partition (List.range 10) ((1 : ℚ)/10) 0 (by decide)
      (by norm_num) (by norm_num)⟩

/-- Claim C6: under the Mahalanobis metric the classifier's inverse
covariance matrix is computed from the training features of the current
trial only — two runs sharing a training partition but with arbitrarily
different test data produce identical fitted classifiers, and the fitted
metric is exactly the inverse of the training covariance matrix. -/
theorem mahalanobis_metric_train_only (d : Nat) (trainF : List (Fin d → ℚ))
    (trainL : List Bool) (testF1 testF2 : List (Fin d → ℚ))
    (testL1 testL2 : List Bool) (k : Nat) :
    (runMahalanobisTrial d trainF trainL testF1 testL1 k).toOption.map Prod.fst =
      (runMahalanobisTrial d trainF trainL testF2 testL2 k).toOption.map Prod.fst ∧
    (runMahalanobisTrial d trainF trainL testF1 testL1 k).toOption.map
        (fun p => p.1.metric) =
      (matInv (sampleCov d trainF)).map Metric.mahalanobis := by
  unfold runMahalanobisTrial fitMahalanobis
  cases matInv (sampleCov d trainF) <;> simp [Except.toOption]

/-- Claim C7: Mahalanobis fitting fails with the explicit `MetricError`
exactly when the training covariance matrix is singular (determinant zero),
and on a non-singular covariance matrix it succeeds with the inverse
covariance as the metric — no error and no silent NaN propagation. -/
theorem mahalanobis_singular_iff (d : Nat) (trainF : List (Fin d → ℚ))
    (trainL : List Bool) (k : Nat) :
    (fitMahalanobis d trainF trainL k = .error .singularCovariance ↔
      (sampleCov d trainF).det = 0) ∧
    ((sampleCov d trainF).det ≠ 0 →
      ∃ c : Classifier d, fitMahalanobis d trainF trainL k = .ok c ∧
        c.metric = .mahalanobis
          ((sampleCov d trainF).det⁻¹ • (sampleCov d trainF).adjugate)) := by
  constructor
  · by_cases h : (sampleCov d trainF).det = 0
    · simp [fitMahalanobis, matInv, h]
    · simp [fitMahalanobis, matInv, h]
  · intro h
    exact ⟨⟨trainF, trainL, k, .mahalanobis _⟩, by simp [fitMahalanobis, matInv, h], rfl⟩

/-- Witness for claim C7: a training set of two identical points has a
singular covariance matrix and fitting fails; two distinct points give a
non-singular covariance matrix and fitting succeeds. -/
theorem mahalanobis_singular_iff_witness :
    (sampleCov 1 [fun _ => 0, fun _ => 0]).det = 0 ∧
    (fitMahalanobis 1 [fun _ => 0, fun _ => 0] [true, false] 1 =
      .error .singularCovariance) ∧
    (sampleCov 1 [fun _ => 0, fun _ => 1]).det ≠ 0 ∧
    (∃ c : Classifier 1, fitMahalanobis 1 [fun _ => 0, fun _ => 1] [true, false] 1 =
        .ok c ∧
      c.metric = .mahalanobis
        ((sampleCov 1 [fun _ => 0, fun _ => 1]).det⁻¹ •
          (sampleCov 1 [fun _ => 0, fun _ => 1]).adjugate)) := by
  have h0 : (sampleCov 1 [fun _ => (0 : ℚ), fun _ => 0]).det = 0 := by
    rw [Matrix.det_fin_one]
    norm_num [sampleCov, sampleMean, Matrix.of_apply]
  have h1 : (sampleCov 1 [fun _ => (0 : ℚ), fun _ => 1]).det ≠ 0 := by
    rw [Matrix.det_fin_one]
    norm_num [sampleCov, sampleMean, Matrix.of_apply]
  exact ⟨h0, (mahalanobis_singular_iff 1 _ [true, false] 1).1.mpr h0, h1,
    (mahalanobis_singular_iff 1 _ [true, false] 1).2 h1⟩

/-- Claim C8: the predicted probability always lies in [0,1] and equals the
fraction of the k nearest training neighbors whose label is true; `predict`
is the majority vote of those neighbors; and the spec's 1-neighbor
Euclidean scenario on `([0], true)` and `([10], false)` predicts true at
`[1]` and false at `[9]`. -/
theorem predict_knn_spec :
    (∀ (d : Nat) (c : Classifier d) (q : Fin d → ℚ),
      0 ≤ predictProbability c q ∧ predictProbability c q ≤ 1 ∧
      predictProbability c q =
        ((kNearest c q).countP (fun nb => nb.label) : ℚ) / (c.k : ℚ) ∧
      (predict c q = true ↔
        (kNearest c q).countP (fun nb => !nb.label) <
          (kNearest c q).countP (fun nb => nb.label))) ∧
    predict scenarioClassifier (fun _ => 1) = true ∧
    predict scenarioClassifier (fun _ => 9) = false := by
  refine ⟨?_, ?_, ?_⟩
  · intro d c q
    have hct : (kNearest c q).countP (fun nb => nb.label) ≤ c.k :=
      le_trans (List.countP_le_length _)
        (List.length_take_le c.k (rankNeighbors c q))
    have hsum := countP_add_countP_not (fun nb : Neighbor d => nb.label) (kNearest c q)
    refine ⟨by unfold predictProbability; positivity, ?_, rfl, ?_⟩
    · unfold predictProbability
      rcases Nat.eq_zero_or_pos c.k with hk | hk
      · have hz : (kNearest c q).countP (fun nb => nb.label) = 0 :=
          Nat.le_zero.mp (hk ▸ hct)
        rw [hz]
        norm_num
      · rw [div_le_one (by exact_mod_cast hk)]
        exact_mod_cast hct
    · unfold predict
      rw [decide_eq_true_eq]
      omega
  · norm_num [predict, kNearest, rankNeighbors, annotated, neighborRel, sqDist,
      scenarioClassifier, Fin.sum_univ_one, List.enum]
  · norm_num [predict, kNearest, rankNeighbors, annotated, neighborRel, sqDist,
      scenarioClassifier, Fin.sum_univ_one, List.enum]

/-- Claim C9: the neighbor ranking used for k-NN prediction is strictly
ordered by (distance, training index): any two equidistant training points
appear in increasing index order, so ties are broken deterministically by
the insertion order of the training data; the k nearest neighbors are the
k-prefix of that ranking. -/
theorem knn_tiebreak_stable (d : Nat) (c : Classifier d) (q : Fin d → ℚ) :
    List.Pairwise
      (fun a b : Neighbor d =>
        sqDist c.metric q a.features < sqDist c.metric q b.features ∨
          (sqDist c.metric q a.features = sqDist c.metric q b.features ∧
            a.idx < b.idx))
      (rankNeighbors c q) ∧
    kNearest c q = (rankNeighbors c q).take c.k := by
  refine ⟨?_, rfl⟩
  have hsorted : List.Pairwise (neighborRel c q) (rankNeighbors c q) :=
    List.sorted_insertionSort (neighborRel c q) (annotated c)
  have hperm : (rankNeighbors c q).Perm (annotated c) :=
    List.perm_insertionSort _ _
  have hnd : ((annotated c).map Neighbor.idx).Nodup := by
    unfold annotated
    rw [List.map_map,
      show (Neighbor.idx ∘ fun p : Nat × ((Fin d → ℚ) × Bool) =>
        (⟨p.1, p.2.1, p.2.2⟩ : Neighbor d)) = Prod.fst from rfl,
      List.enum_map_fst]
    exact List.nodup_range _
  have hndrank : ((rankNeighbors c q).map Neighbor.idx).Nodup :=
    ((hperm.map Neighbor.idx).nodup_iff).mpr hnd
  have hpairne : (rankNeighbors c q).Pairwise (fun a b => a.idx ≠ b.idx) :=
    List.pairwise_map.mp hndrank
  refine (hsorted.and hpairne).imp ?_
  rintro a b ⟨hrel, hne⟩
  rcases hrel with h | ⟨h, hle⟩
  · exact Or.inl h
  · exact Or.inr ⟨h, Nat.lt_of_le_of_ne hle hne⟩

end BinaryClassification
